import Mathlib

/-!
Verification of the woid workspace-manifest loader (src/woid/workspace.py).

The embedding models the manifest-parsing pipeline starting from the decoded
JSON document: the file read and the JSON decode of Workspace.__init__
(whose failures are the IOFailure / DecodeFailure diagnostics) happen before
everything the claims below talk about, so loadWorkspace here takes the parent
directory of the manifest file (root_dir, as a list of path components) and
the decoded top-level JSON object.

Python dictionaries are modelled as association lists in insertion order;
keys of a decoded JSON object are unique.  Python truthiness, str() coercion
and int() parsing are modelled explicitly.  log.fatal is NoReturn
(it calls sys.exit(-1)), so each fatal diagnostic aborts the whole load; an
exception that no code catches (for example the ValueError raised by int())
is a distinct outcome, pythonCrash.  Console warnings and the filesystem
mutation performed by Repo.init are collected in an explicit effect list.
-/

namespace Woid

/-- Decoded JSON values.  Numeric literals are modelled as integers (the
manifests the claims quantify over only use integral numbers); arrays and
nested objects are included so that truthiness and coercion behave as in
Python. -/
inductive JValue where
  | str (s : String)
  | num (n : Int)
  | bool (b : Bool)
  | null
  | obj (fields : List (String × JValue))
  | arr (elems : List JValue)
deriving Repr

/-- Python truthiness of a decoded JSON value: None, False, 0, empty string
and empty containers are falsy, everything else truthy. -/
def truthy : JValue → Bool
  | .str s => !s.isEmpty
  | .num n => n != 0
  | .bool b => b
  | .null => false
  | .obj fields => !fields.isEmpty
  | .arr elems => !elems.isEmpty

/-- Truthiness of dict.get: an absent key behaves like None (falsy). -/
def truthyOpt : Option JValue → Bool
  | some v => truthy v
  | none => false

/-- dict lookup on an association list (keys of a decoded JSON object are
unique, so first match is the match). -/
def lookup' {α : Type} (l : List (String × α)) (k : String) : Option α :=
  (l.find? (fun p => p.1 == k)).map (fun p => p.2)

/-- The association list with the entry for key k removed: the mapping that
dict.pop(k, None) leaves behind. -/
def dropKey (l : List (String × JValue)) (k : String) : List (String × JValue) :=
  l.filter (fun p => p.1 != k)

mutual
/-- Python repr of a decoded JSON value (string escaping inside reprs is not
modelled; no claim evaluates repr on a string that would need escapes). -/
def pyRepr : JValue → String
  | .str s => "\x27" ++ s ++ "\x27"
  | .num n => toString n
  | .bool b => if b then "True" else "False"
  | .null => "None"
  | .obj fields => "\x7b" ++ pyReprFields fields ++ "\x7d"
  | .arr elems => "[" ++ pyReprElems elems ++ "]"

/-- repr of the comma-separated field list of a dict. -/
def pyReprFields : List (String × JValue) → String
  | [] => ""
  | [(k, v)] => "\x27" ++ k ++ "\x27: " ++ pyRepr v
  | (k, v) :: rest => "\x27" ++ k ++ "\x27: " ++ pyRepr v ++ ", " ++ pyReprFields rest

/-- repr of the comma-separated element list of a list. -/
def pyReprElems : List JValue → String
  | [] => ""
  | [v] => pyRepr v
  | v :: rest => pyRepr v ++ ", " ++ pyReprElems rest
end

/-- Python str() of a decoded JSON value: identity on strings, repr-like on
everything else (str and repr agree on ints, bools and None). -/
def pyStr : JValue → String
  | .str s => s
  | v => pyRepr v

/-- str.split with a one-character separator: splits at every occurrence,
keeping empty parts, and yields one part for the empty string, exactly as in
Python. -/
def pySplit (sep : Char) : List Char → List (List Char)
  | [] => [[]]
  | c :: cs =>
    if c = sep then [] :: pySplit sep cs
    else
      match pySplit sep cs with
      | [] => [[c]]
      | part :: parts => (c :: part) :: parts

/-- Digit run of a Python integer literal, single underscores allowed
strictly between (ASCII) digits, as accepted by int(). -/
def pyDigits : List Char → Option Nat
  | [] => none
  | c :: cs =>
    if c.isDigit then pyDigitsAux (c.toNat - 48) cs else none
where
  pyDigitsAux (acc : Nat) : List Char → Option Nat
  | [] => some acc
  | c :: cs =>
    if c.isDigit then pyDigitsAux (10 * acc + (c.toNat - 48)) cs
    else if c == '_' then
      match cs with
      | [] => none
      | c2 :: cs2 =>
        if c2.isDigit then pyDigitsAux (10 * acc + (c2.toNat - 48)) cs2 else none
    else none

/-- Python int(string): strips surrounding whitespace, accepts one optional
sign, then a digit run (underscores between digits allowed); none models the
ValueError raised on anything else.  (Non-ASCII digits are not modelled.) -/
def pyInt? (s : String) : Option Int :=
  let cs := (s.toList.dropWhile Char.isWhitespace).reverse.dropWhile Char.isWhitespace
  match cs.reverse with
  | '+' :: rest => (pyDigits rest).map Int.ofNat
  | '-' :: rest => (pyDigits rest).map (fun n => -(n : Int))
  | rest => (pyDigits rest).map Int.ofNat

/-- Observable side effects of a load: the extraneous-field console warning
(log.wrn in Host.__init__) and the filesystem mutation of
Repo.init(path=..., mkdir=True, bare=True) in Project.__init__, which creates
the directory and writes a bare git repository under it. -/
inductive Effect where
  | warnExtraneous (hostName : String) (keys : List String)
  | repoInit (path : List String)
deriving Repr, DecidableEq

/-- Whether an effect mutates the filesystem (console output does not). -/
def Effect.isFsMutation : Effect → Bool
  | .warnExtraneous _ _ => false
  | .repoInit _ => true

/-- Structured fatal diagnostics raised through log.fatal.  One of the
top-level fields version / hosts / projects missing carries the whole root
object as payload in the source; that payload (mutated in place by the time
the projects diagnostic fires) is not modelled, as nothing below inspects it.
missingField covers a host without url and a project without host and
carries the context name plus the erroneous_json fragment
(a one-entry dict from the entity name to its remaining fields). -/
inductive ManifestError where
  | missingRootField (field : String)
  | missingField (field : String) (context : String)
      (erroneousJson : List (String × JValue))
  | malformedVersion (value : String)
  | unresolvedReference (context : String) (reference : String)
      (validHosts : List String) (erroneousJson : List (String × JValue))
deriving Repr

/-- Terminal failure of a load: a structured diagnostic followed by
sys.exit(-1), or an exception no code catches (uncaught ValueError from
int(), attribute/type errors from treating a non-dict as a dict). -/
inductive Failure where
  | fatal (e : ManifestError)
  | pythonCrash (msg : String)
deriving Repr

structure Host where
  name : String
  url : String
deriving Repr, DecidableEq

/-- Host.__init__(name, json): pops url from the host object, requires it
truthy (coercing to str), and warns about any remaining fields.  A non-dict
host value crashes on json.pop. -/
def Host.init (name : String) (v : JValue) : List Effect × Except Failure Host :=
  match v with
  | .obj json =>
    let rest := dropKey json "url"
    match lookup' json "url" with
    | some u =>
      if truthy u then
        ((if rest.isEmpty then [] else [.warnExtraneous name (rest.map (fun p => p.1))]),
         .ok { name := name, url := pyStr u })
      else
        ([], .error (.fatal (.missingField "url" name [(name, .obj rest)])))
    | none =>
      ([], .error (.fatal (.missingField "url" name [(name, .obj rest)])))
  | _ => ([], .error (.pythonCrash "AttributeError"))

/-- Project: hostRef records the reference name used in the host field (the
source keeps it only inside absolute_host_path); status, tracking and the
repo handle of the source are never meaningfully set by the parser and are
omitted (the repository initialisation is the repoInit effect).  Path join
is modelled as appending one component. -/
structure Project where
  name : String
  hostRef : String
  host : Host
  absolute_local_path : List String
  absolute_host_path : String
deriving Repr, DecidableEq

/-- ws.hosts.get(host_name): a Python dict keyed by strings returns the
entry for a matching string key, None for any other hashable key (a number,
a boolean or None misses every string key), and raises an uncaught
TypeError for an unhashable key (a dict or a list). -/
def lookupHost (hosts : List (String × Host)) : JValue → Except Failure (Option Host)
  | .str s => .ok (lookup' hosts s)
  | .num _ => .ok none
  | .bool _ => .ok none
  | .null => .ok none
  | .obj _ => .error (.pythonCrash "TypeError")
  | .arr _ => .error (.pythonCrash "TypeError")

/-- Project.__init__(name, json, ws): pops host from the project object,
requires it truthy, resolves it against ws.hosts (a get miss fails with the
unresolved-reference diagnostic carrying list(ws.hosts.keys()); an
unhashable host value propagates the uncaught TypeError of the get itself),
computes the two paths and initialises a bare git repository at the local
path. -/
def Project.init (name : String) (v : JValue) (hosts : List (String × Host))
    (root_dir : List String) : List Effect × Except Failure Project :=
  match v with
  | .obj json =>
    let rest := dropKey json "host"
    match lookup' json "host" with
    | some hv =>
      if truthy hv then
        match lookupHost hosts hv with
        | .ok (some h) =>
          ([.repoInit (root_dir ++ [name])],
           .ok { name := name, hostRef := pyStr hv, host := h,
                 absolute_local_path := root_dir ++ [name],
                 absolute_host_path := h.url ++ "/" ++ pyStr hv })
        | .ok none =>
          ([], .error (.fatal (.unresolvedReference name (pyStr hv)
            (hosts.map (fun p => p.1)) [(name, .obj rest)])))
        | .error e => ([], .error e)
      else
        ([], .error (.fatal (.missingField "host" name [(name, .obj rest)])))
    | none =>
      ([], .error (.fatal (.missingField "host" name [(name, .obj rest)])))
  | _ => ([], .error (.pythonCrash "AttributeError"))

structure Version where
  major : Int
  minor : Int
deriving Repr, DecidableEq

structure Workspace where
  _woid_version : Version
  root_dir : List String
  projects_dir : List String
  hosts : List (String × Host)
  projects : List (String × Project)
deriving Repr

/-- Workspace._parse_workspace_version: version must be present and truthy
(else the missing-field diagnostic), its str() form must split on dots into
exactly two parts (a tuple-unpack ValueError is caught and reported as the
malformed-version diagnostic), and each part is then fed to int() outside
the try block, so a part int() rejects raises an uncaught ValueError. -/
def Workspace._parse_workspace_version (json : List (String × JValue)) :
    Except Failure Version :=
  match lookup' json "version" with
  | some v =>
    if truthy v then
      let woid_version := pyStr v
      match (pySplit '.' woid_version.toList).map String.mk with
      | [version_major, version_minor] =>
        match pyInt? version_major, pyInt? version_minor with
        | some major, some minor => .ok { major := major, minor := minor }
        | _, _ => .error (.pythonCrash "ValueError")
      | _ => .error (.fatal (.malformedVersion woid_version))
    else .error (.fatal (.missingRootField "version"))
  | none => .error (.fatal (.missingRootField "version"))

/-- The for-loop body of _parse_workspace_hosts: builds one Host per entry in
manifest order, stopping at the first fatal diagnostic; warnings emitted
before the stop have already been printed. -/
def Workspace.hostsLoop : List (String × JValue) →
    List Effect × Except Failure (List (String × Host))
  | [] => ([], .ok [])
  | (host_name, host_json) :: rest =>
    let (effs, r) := Host.init host_name host_json
    match r with
    | .error e => (effs, .error e)
    | .ok h =>
      let (effs2, r2) := Workspace.hostsLoop rest
      (effs ++ effs2, r2.map (fun hs => (host_name, h) :: hs))

/-- Workspace._parse_workspace_hosts: hosts must be present and truthy (an
empty object is falsy), else the missing-field diagnostic; a truthy non-dict
crashes on .items(). -/
def Workspace._parse_workspace_hosts (json : List (String × JValue)) :
    List Effect × Except Failure (List (String × Host)) :=
  match lookup' json "hosts" with
  | some hv =>
    if truthy hv then
      match hv with
      | .obj entries => Workspace.hostsLoop entries
      | _ => ([], .error (.pythonCrash "AttributeError"))
    else ([], .error (.fatal (.missingRootField "hosts")))
  | none => ([], .error (.fatal (.missingRootField "hosts")))

/-- The for-loop body of _parse_workspace_projects: builds one Project per
entry in manifest order against the already-parsed hosts, stopping at the
first fatal diagnostic; repositories initialised before the stop exist. -/
def Workspace.projectsLoop (hosts : List (String × Host)) (root_dir : List String) :
    List (String × JValue) → List Effect × Except Failure (List (String × Project))
  | [] => ([], .ok [])
  | (project_name, project_json) :: rest =>
    let (effs, r) := Project.init project_name project_json hosts root_dir
    match r with
    | .error e => (effs, .error e)
    | .ok p =>
      let (effs2, r2) := Workspace.projectsLoop hosts root_dir rest
      (effs ++ effs2, r2.map (fun ps => (project_name, p) :: ps))

/-- Workspace._parse_workspace_projects: projects must be present and truthy
(an empty object is falsy), else the missing-field diagnostic; a truthy
non-dict crashes on .items(). -/
def Workspace._parse_workspace_projects (json : List (String × JValue))
    (hosts : List (String × Host)) (root_dir : List String) :
    List Effect × Except Failure (List (String × Project)) :=
  match lookup' json "projects" with
  | some pv =>
    if truthy pv then
      match pv with
      | .obj entries => Workspace.projectsLoop hosts root_dir entries
      | _ => ([], .error (.pythonCrash "AttributeError"))
    else ([], .error (.fatal (.missingRootField "projects")))
  | none => ([], .error (.fatal (.missingRootField "projects")))

/-- Workspace.__init__ after the file read and JSON decode: parse the
version, set root_dir (the manifest parent directory) and projects_dir,
parse hosts, then projects; the first fatal diagnostic aborts the load.
Returns the effects performed together with the outcome. -/
def loadWorkspace (root_dir : List String) (json : List (String × JValue)) :
    List Effect × Except Failure Workspace :=
  match Workspace._parse_workspace_version json with
  | .error e => ([], .error e)
  | .ok ver =>
    let (effsH, rh) := Workspace._parse_workspace_hosts json
    match rh with
    | .error e => (effsH, .error e)
    | .ok hosts =>
      let (effsP, rp) := Workspace._parse_workspace_projects json hosts root_dir
      match rp with
      | .error e => (effsH ++ effsP, .error e)
      | .ok projects =>
        (effsH ++ effsP,
         .ok { _woid_version := ver, root_dir := root_dir,
               projects_dir := root_dir ++ ["projects"],
               hosts := hosts, projects := projects })

/-- The minimal valid manifest of the specification: one host google, one
project lib-a referencing it. -/
def exampleManifest : List (String × JValue) :=
  [("version", .str "0.1"),
   ("hosts", .obj [("google", .obj [("url", .str "https://github.com/google")])]),
   ("projects", .obj [("lib-a", .obj [("host", .str "google")])])]

/-- A manifest whose hosts and projects objects are both empty. -/
def emptyCollectionsManifest : List (String × JValue) :=
  [("version", .str "0.1"), ("hosts", .obj []), ("projects", .obj [])]

/-- A manifest declaring hosts in non-alphabetical order and one project
with a dangling host reference. -/
def danglingRefManifest : List (String × JValue) :=
  [("version", .str "0.1"),
   ("hosts", .obj [("zeta", .obj [("url", .str "uz")]),
                   ("alpha", .obj [("url", .str "ua")])]),
   ("projects", .obj [("lib", .obj [("host", .str "missing")])])]

/-- A host entry is accepted by Host.init exactly when it is an object whose
url field is present and truthy. -/
def validHostJson : JValue → Bool
  | .obj fields => truthyOpt (lookup' fields "url")
  | _ => false

/-- A project entry is accepted by Project.init against the given host names
exactly when it is an object whose host field is a non-empty string naming a
declared host. -/
def validProjectJson (hostNames : List String) : JValue → Bool
  | .obj fields =>
    match lookup' fields "host" with
    | some (.str s) => !s.isEmpty && hostNames.contains s
    | _ => false
  | _ => false

/-- The host the minimal example manifest declares. -/
def exampleHost : Host :=
  { name := "google", url := "https://github.com/google" }

/-- The project the minimal example manifest declares, as Project.init
constructs it under root directory [root]. -/
def exampleProject : Project :=
  { name := "lib-a", hostRef := "google", host := exampleHost,
    absolute_local_path := ["root", "lib-a"],
    absolute_host_path := "https://github.com/google/google" }

/-- The workspace a load of the minimal example manifest assembles under
root directory [root]. -/
def exampleWorkspace : Workspace :=
  { _woid_version := { major := 0, minor := 1 }, root_dir := ["root"],
    projects_dir := ["root", "projects"],
    hosts := [("google", exampleHost)], projects := [("lib-a", exampleProject)] }

theorem lookup'_cons {α : Type} (a : String × α) (l : List (String × α)) (k : String) :
    lookup' (a :: l) k = if a.1 == k then some a.2 else lookup' l k := by
  by_cases h : a.1 == k <;> simp [lookup', List.find?_cons, h]

theorem lookup'_isSome_of_mem {α : Type} {l : List (String × α)} {k : String}
    (h : k ∈ l.map Prod.fst) : ∃ v, lookup' l k = some v := by
  induction l with
  | nil => simp at h
  | cons a l ih =>
    rw [lookup'_cons]
    by_cases hk : a.1 == k
    · exact ⟨a.2, by simp [hk]⟩
    · have hne : ¬(k = a.1) := fun he => hk (by simp [he])
      rw [List.map_cons] at h
      rcases List.mem_cons.mp h with h1 | h1
      · exact absurd h1 hne
      · simpa [hk] using ih h1

theorem lookup'_eq_none_of_not_mem {α : Type} {l : List (String × α)} {k : String}
    (h : k ∉ l.map Prod.fst) : lookup' l k = none := by
  induction l with
  | nil => rfl
  | cons a l ih =>
    rw [List.map_cons] at h
    have h1 : ¬(a.1 = k) := fun he => h (List.mem_cons.mpr (Or.inl he.symm))
    have h2 : k ∉ l.map Prod.fst := fun hm => h (List.mem_cons.mpr (Or.inr hm))
    rw [lookup'_cons]
    simp only [beq_iff_eq]
    rw [if_neg h1]
    exact ih h2

theorem dropKey_keys_of_nodup {json : List (String × JValue)} {k : String}
    (h : (json.map Prod.fst).Nodup) :
    (dropKey json k).map Prod.fst = (json.map Prod.fst).erase k := by
  induction json with
  | nil => rfl
  | cons a l ih =>
    rw [List.map_cons, List.nodup_cons] at h
    by_cases hk : a.1 = k
    · subst hk
      have hfilter : dropKey l a.1 = l :=
        List.filter_eq_self.mpr (fun p hp => by
          simpa using fun (he : p.1 = a.1) => h.1 (he ▸ List.mem_map_of_mem Prod.fst hp))
      have h1 : dropKey (a :: l) a.1 = dropKey l a.1 := by
        simp [dropKey, List.filter_cons]
      rw [h1, hfilter, List.map_cons, List.erase_cons_head]
    · have h1 : dropKey (a :: l) k = a :: dropKey l k := by
        simp only [dropKey, List.filter_cons]
        rw [if_pos (by simpa using hk)]
      rw [h1, List.map_cons, List.map_cons,
        List.erase_cons_tail (by simpa using hk), ih h.2]

theorem dropKey_key_not_mem (json : List (String × JValue)) (k : String) :
    k ∉ (dropKey json k).map Prod.fst := by
  intro h
  rcases List.mem_map.mp h with ⟨p, hp, hk⟩
  have := List.of_mem_filter hp
  simp [hk] at this

theorem hostInit_effects (name : String) (v : JValue) :
    (Host.init name v).1.filter Effect.isFsMutation = [] := by
  cases v <;> simp only [Host.init] <;> try simp
  case obj json =>
    cases lookup' json "url" with
    | none => simp
    | some u =>
      by_cases ht : truthy u
      · simp only [ht, if_true]
        split <;> simp [Effect.isFsMutation]
      · simp [ht]

theorem hostInit_ok_of_valid (name : String) {v : JValue} (hv : validHostJson v = true) :
    ∃ effs h, Host.init name v = (effs, Except.ok h) := by
  cases v <;> simp [validHostJson] at hv
  case obj json =>
    cases hu : lookup' json "url" with
    | none => rw [hu] at hv; simp [truthyOpt] at hv
    | some u =>
      rw [hu] at hv
      simp only [truthyOpt] at hv
      have heq : Host.init name (.obj json) =
          ((if (dropKey json "url").isEmpty then []
            else [Effect.warnExtraneous name ((dropKey json "url").map (fun p => p.1))]),
           .ok ⟨name, pyStr u⟩) := by
        simp [Host.init, hu, hv]
      exact ⟨_, _, heq⟩

theorem hostsLoop_ok_of_valid (entries : List (String × JValue))
    (hv : ∀ q ∈ entries, validHostJson q.2 = true) :
    ∃ effs hs, Workspace.hostsLoop entries = (effs, Except.ok hs) ∧
      hs.map Prod.fst = entries.map Prod.fst := by
  induction entries with
  | nil => exact ⟨[], [], rfl, rfl⟩
  | cons a rest ih =>
    obtain ⟨effs1, h1, heq1⟩ := hostInit_ok_of_valid a.1 (hv a (List.mem_cons_self a rest))
    obtain ⟨effs2, hs2, heq2, hkeys⟩ := ih (fun q hq => hv q (List.mem_cons_of_mem a hq))
    refine ⟨effs1 ++ effs2, (a.1, h1) :: hs2, ?_, ?_⟩
    · show Workspace.hostsLoop (a :: rest) = _
      rw [show (a : String × JValue) = (a.1, a.2) from rfl]
      simp only [Workspace.hostsLoop]
      rw [heq1, heq2]
      rfl
    · simp [hkeys]

theorem hostsLoop_effects (entries : List (String × JValue)) :
    (Workspace.hostsLoop entries).1.filter Effect.isFsMutation = [] := by
  induction entries with
  | nil => rfl
  | cons a rest ih =>
    rw [show (a : String × JValue) = (a.1, a.2) from rfl]
    simp only [Workspace.hostsLoop]
    cases heq : Host.init a.1 a.2 with
    | mk effs r =>
      have he : effs.filter Effect.isFsMutation = [] := by
        have := hostInit_effects a.1 a.2
        rw [heq] at this
        exact this
      cases r with
      | error e => exact he
      | ok h => simp [List.filter_append, he, ih]

theorem parseHosts_effects (json : List (String × JValue)) :
    (Workspace._parse_workspace_hosts json).1.filter Effect.isFsMutation = [] := by
  simp only [Workspace._parse_workspace_hosts]
  cases lookup' json "hosts" with
  | none => rfl
  | some hv =>
    by_cases ht : truthy hv
    · simp only [ht, if_true]
      cases hv <;> first | rfl | exact hostsLoop_effects _
    · simp [ht]

theorem projectInit_ok_elim {name : String} {v : JValue} {hosts : List (String × Host)}
    {rd : List String} {effs : List Effect} {p : Project}
    (heq : Project.init name v hosts rd = (effs, Except.ok p)) :
    ∃ json r h, v = JValue.obj json ∧ lookup' json "host" = some (JValue.str r) ∧
      lookup' hosts r = some h ∧
      p = ⟨name, r, h, rd ++ [name], h.url ++ "/" ++ r⟩ ∧
      effs = [Effect.repoInit (rd ++ [name])] := by
  cases v
  case obj json =>
    simp only [Project.init] at heq
    split at heq
    case h_1 hv hh =>
      split at heq
      · split at heq
        case h_1 h hl =>
          injection heq with h1 h2
          injection h2 with h3
          cases hv with
          | str s =>
            simp only [lookupHost, Except.ok.injEq] at hl
            exact ⟨json, s, h, rfl, hh, hl, by rw [← h3]; simp [pyStr], h1.symm⟩
          | num n => exact absurd hl (by simp [lookupHost])
          | bool b => exact absurd hl (by simp [lookupHost])
          | null => exact absurd hl (by simp [lookupHost])
          | obj o => exact absurd hl (by simp [lookupHost])
          | arr a => exact absurd hl (by simp [lookupHost])
        case h_2 hl => simp at heq
        case h_3 e0 hl => simp at heq
      · simp at heq
    case h_2 hh => simp at heq
  all_goals simp only [Project.init] at heq ; simp at heq

theorem projectInit_ok_of_valid (name : String) {v : JValue} (hosts : List (String × Host))
    (rd : List String) (hv : validProjectJson (hosts.map Prod.fst) v = true) :
    ∃ p, Project.init name v hosts rd = ([Effect.repoInit (rd ++ [name])], Except.ok p) := by
  cases v <;> simp [validProjectJson] at hv
  case obj json =>
    cases hh : lookup' json "host" with
    | none => rw [hh] at hv; simp at hv
    | some u =>
      rw [hh] at hv
      cases u <;> simp at hv
      case str s =>
        obtain ⟨hs, x, hx⟩ := hv
        obtain ⟨h, hl⟩ := lookup'_isSome_of_mem (List.mem_map_of_mem Prod.fst hx)
        have hl' : lookup' hosts s = some h := hl
        exact ⟨⟨name, s, h, rd ++ [name], h.url ++ "/" ++ s⟩, by
          simp [Project.init, hh, truthy, hs, lookupHost, hl', pyStr]⟩

theorem projectsLoop_ok_of_valid (hosts : List (String × Host)) (rd : List String)
    (entries : List (String × JValue))
    (hv : ∀ q ∈ entries, validProjectJson (hosts.map Prod.fst) q.2 = true) :
    ∃ effs ps, Workspace.projectsLoop hosts rd entries = (effs, Except.ok ps) ∧
      ps.map Prod.fst = entries.map Prod.fst := by
  induction entries with
  | nil => exact ⟨[], [], rfl, rfl⟩
  | cons a rest ih =>
    obtain ⟨p1, heq1⟩ := projectInit_ok_of_valid a.1 hosts rd (hv a (List.mem_cons_self a rest))
    obtain ⟨effs2, ps2, heq2, hkeys⟩ := ih (fun q hq => hv q (List.mem_cons_of_mem a hq))
    refine ⟨[Effect.repoInit (rd ++ [a.1])] ++ effs2, (a.1, p1) :: ps2, ?_, by simp [hkeys]⟩
    rw [show (a : String × JValue) = (a.1, a.2) from rfl]
    simp only [Workspace.projectsLoop]
    rw [heq1, heq2]
    rfl

theorem projectsLoop_mem_resolve (hosts : List (String × Host)) (rd : List String)
    (entries : List (String × JValue)) :
    ∀ effs ps, Workspace.projectsLoop hosts rd entries = (effs, Except.ok ps) →
    ∀ q ∈ ps, lookup' hosts q.2.hostRef = some q.2.host := by
  induction entries with
  | nil =>
    intro effs ps heq q hq
    simp only [Workspace.projectsLoop] at heq
    injection heq with h1 h2
    injection h2 with h3
    rw [← h3] at hq
    simp at hq
  | cons a rest ih =>
    intro effs ps heq q hq
    rw [show (a : String × JValue) = (a.1, a.2) from rfl] at heq
    simp only [Workspace.projectsLoop] at heq
    cases h1 : Project.init a.1 a.2 hosts rd with
    | mk effs1 r1 =>
      rw [h1] at heq
      cases r1 with
      | error e => simp at heq
      | ok p =>
        cases h2 : Workspace.projectsLoop hosts rd rest with
        | mk effs2 r2 =>
          rw [h2] at heq
          cases r2 with
          | error e => simp [Except.map] at heq
          | ok ps2 =>
            simp only [Except.map] at heq
            injection heq with he hp
            injection hp with hp
            rw [← hp] at hq
            rcases List.mem_cons.mp hq with h | h
            · subst h
              obtain ⟨json, r, h', _, _, hl, hpeq, _⟩ := projectInit_ok_elim h1
              simp [hpeq, hl]
            · exact ih effs2 ps2 h2 q h

theorem projectsLoop_filter_fs (hosts : List (String × Host)) (rd : List String)
    (entries : List (String × JValue)) :
    ∀ effs ps, Workspace.projectsLoop hosts rd entries = (effs, Except.ok ps) →
    effs.filter Effect.isFsMutation =
      ps.map (fun q => Effect.repoInit q.2.absolute_local_path) := by
  induction entries with
  | nil =>
    intro effs ps heq
    simp only [Workspace.projectsLoop] at heq
    injection heq with h1 h2
    injection h2 with h3
    rw [← h1, ← h3]
    rfl
  | cons a rest ih =>
    intro effs ps heq
    rw [show (a : String × JValue) = (a.1, a.2) from rfl] at heq
    simp only [Workspace.projectsLoop] at heq
    cases h1 : Project.init a.1 a.2 hosts rd with
    | mk effs1 r1 =>
      rw [h1] at heq
      cases r1 with
      | error e => simp at heq
      | ok p =>
        cases h2 : Workspace.projectsLoop hosts rd rest with
        | mk effs2 r2 =>
          rw [h2] at heq
          cases r2 with
          | error e => simp [Except.map] at heq
          | ok ps2 =>
            simp only [Except.map] at heq
            injection heq with he hp
            injection hp with hp
            obtain ⟨json, r, h', _, _, _, hpeq, heffs⟩ := projectInit_ok_elim h1
            rw [← he, ← hp, heffs, List.filter_append]
            simp only [List.map_cons, hpeq]
            rw [ih effs2 ps2 h2]
            simp [Effect.isFsMutation]

theorem loadWorkspace_ok_elim {rd : List String} {json : List (String × JValue)}
    {effs : List Effect} {ws : Workspace}
    (h : loadWorkspace rd json = (effs, Except.ok ws)) :
    ∃ effsH effsP,
      Workspace._parse_workspace_hosts json = (effsH, Except.ok ws.hosts) ∧
      Workspace._parse_workspace_projects json ws.hosts rd = (effsP, Except.ok ws.projects) ∧
      effs = effsH ++ effsP ∧ ws.root_dir = rd := by
  simp only [loadWorkspace] at h
  cases hv : Workspace._parse_workspace_version json with
  | error e => rw [hv] at h; simp at h
  | ok ver =>
    rw [hv] at h
    dsimp only at h
    cases hh : Workspace._parse_workspace_hosts json with
    | mk effsH rh =>
      rw [hh] at h
      dsimp only at h
      cases rh with
      | error e => simp at h
      | ok hosts =>
        dsimp only at h
        cases hp : Workspace._parse_workspace_projects json hosts rd with
        | mk effsP rp =>
          rw [hp] at h
          dsimp only at h
          cases rp with
          | error e => simp at h
          | ok projects =>
            dsimp only at h
            injection h with h1 h2
            injection h2 with h2
            cases h2
            exact ⟨effsH, effsP, rfl, hp, h1.symm, rfl⟩

theorem projectsLoop_unresolved (hosts : List (String × Host)) (rd : List String)
    (pre : List (String × JValue)) (pname : String) (pjson : List (String × JValue))
    (rest : List (String × JValue)) (r : String)
    (hpre : ∀ q ∈ pre, validProjectJson (hosts.map Prod.fst) q.2 = true)
    (hhost : lookup' pjson "host" = some (JValue.str r)) (hr : r.isEmpty = false)
    (hnot : r ∉ hosts.map Prod.fst) :
    (Workspace.projectsLoop hosts rd (pre ++ (pname, JValue.obj pjson) :: rest)).2 =
      Except.error (.fatal (.unresolvedReference pname r (hosts.map Prod.fst)
        [(pname, JValue.obj (dropKey pjson "host"))])) := by
  induction pre with
  | nil =>
    rw [List.nil_append]
    simp only [Workspace.projectsLoop]
    have hinit : Project.init pname (JValue.obj pjson) hosts rd =
        ([], .error (.fatal (.unresolvedReference pname r (hosts.map Prod.fst)
          [(pname, JValue.obj (dropKey pjson "host"))]))) := by
      simp [Project.init, hhost, truthy, hr, lookupHost,
        lookup'_eq_none_of_not_mem hnot, pyStr]
    rw [hinit]
  | cons a pre ih =>
    obtain ⟨p1, heq1⟩ := projectInit_ok_of_valid a.1 hosts rd (hpre a (List.mem_cons_self a pre))
    have ih' := ih (fun q hq => hpre q (List.mem_cons_of_mem a hq))
    rw [List.cons_append, show (a : String × JValue) = (a.1, a.2) from rfl]
    simp only [Workspace.projectsLoop]
    rw [heq1]
    dsimp only
    cases h2 : Workspace.projectsLoop hosts rd (pre ++ (pname, JValue.obj pjson) :: rest) with
    | mk effs2 r2 =>
      rw [h2] at ih'
      dsimp only at ih'
      cases r2 with
      | error e => dsimp only; rw [ih']; rfl
      | ok ps2 => simp at ih'

theorem parseVersion_missing {json : List (String × JValue)}
    (h : truthyOpt (lookup' json "version") = false) :
    Workspace._parse_workspace_version json =
      Except.error (.fatal (.missingRootField "version")) := by
  simp only [Workspace._parse_workspace_version]
  cases hl : lookup' json "version" with
  | none => rfl
  | some v =>
    rw [hl] at h
    simp only [truthyOpt] at h
    simp [h]

theorem parseHosts_missing {json : List (String × JValue)}
    (h : truthyOpt (lookup' json "hosts") = false) :
    Workspace._parse_workspace_hosts json =
      ([], Except.error (.fatal (.missingRootField "hosts"))) := by
  simp only [Workspace._parse_workspace_hosts]
  cases hl : lookup' json "hosts" with
  | none => rfl
  | some v =>
    rw [hl] at h
    simp only [truthyOpt] at h
    simp [h]

theorem parseProjects_missing {json : List (String × JValue)}
    (hosts : List (String × Host)) (rd : List String)
    (h : truthyOpt (lookup' json "projects") = false) :
    Workspace._parse_workspace_projects json hosts rd =
      ([], Except.error (.fatal (.missingRootField "projects"))) := by
  simp only [Workspace._parse_workspace_projects]
  cases hl : lookup' json "projects" with
  | none => rfl
  | some v =>
    rw [hl] at h
    simp only [truthyOpt] at h
    simp [h]

theorem parseHosts_ok_intro {json : List (String × JValue)} {hs : List (String × JValue)}
    (hhosts : lookup' json "hosts" = some (JValue.obj hs)) (hne : hs ≠ []) :
    Workspace._parse_workspace_hosts json = Workspace.hostsLoop hs := by
  cases hs with
  | nil => exact absurd rfl hne
  | cons a l => simp [Workspace._parse_workspace_hosts, hhosts, truthy]

theorem parseProjects_ok_intro {json : List (String × JValue)} {ps : List (String × JValue)}
    (hosts : List (String × Host)) (rd : List String)
    (hprojects : lookup' json "projects" = some (JValue.obj ps)) (hne : ps ≠ []) :
    Workspace._parse_workspace_projects json hosts rd = Workspace.projectsLoop hosts rd ps := by
  cases ps with
  | nil => exact absurd rfl hne
  | cons a l => simp [Workspace._parse_workspace_projects, hprojects, truthy]

theorem parseProjects_ok_elim {json : List (String × JValue)} {hosts : List (String × Host)}
    {rd : List String} {effsP : List Effect} {ps : List (String × Project)}
    (h : Workspace._parse_workspace_projects json hosts rd = (effsP, Except.ok ps)) :
    ∃ entries, lookup' json "projects" = some (JValue.obj entries) ∧
      Workspace.projectsLoop hosts rd entries = (effsP, Except.ok ps) := by
  simp only [Workspace._parse_workspace_projects] at h
  cases hl : lookup' json "projects" with
  | none => rw [hl] at h; simp at h
  | some pv =>
    rw [hl] at h
    dsimp only at h
    by_cases ht : truthy pv
    · rw [if_pos ht] at h
      cases pv with
      | obj entries => exact ⟨entries, rfl, h⟩
      | str s => simp at h
      | num n => simp at h
      | bool b => simp at h
      | null => simp at h
      | arr a => simp at h
    · rw [if_neg ht] at h; simp at h

theorem loadWorkspace_version_err {rd : List String} {json : List (String × JValue)}
    {e : Failure} (hver : Workspace._parse_workspace_version json = Except.error e) :
    loadWorkspace rd json = ([], Except.error e) := by
  simp [loadWorkspace, hver]

theorem loadWorkspace_hosts_err {rd : List String} {json : List (String × JValue)}
    {ver : Version} {effsH : List Effect} {e : Failure}
    (hver : Workspace._parse_workspace_version json = Except.ok ver)
    (hH : Workspace._parse_workspace_hosts json = (effsH, Except.error e)) :
    loadWorkspace rd json = (effsH, Except.error e) := by
  simp only [loadWorkspace, hver]
  try dsimp only
  rw [hH]

theorem loadWorkspace_projects_err {rd : List String} {json : List (String × JValue)}
    {ver : Version} {effsH : List Effect} {hsRes : List (String × Host)}
    {effsP : List Effect} {e : Failure}
    (hver : Workspace._parse_workspace_version json = Except.ok ver)
    (hH : Workspace._parse_workspace_hosts json = (effsH, Except.ok hsRes))
    (hP : Workspace._parse_workspace_projects json hsRes rd = (effsP, Except.error e)) :
    loadWorkspace rd json = (effsH ++ effsP, Except.error e) := by
  simp only [loadWorkspace, hver]
  try dsimp only
  rw [hH]
  try dsimp only
  rw [hP]

theorem loadWorkspace_ok_intro {rd : List String} {json : List (String × JValue)}
    {ver : Version} {effsH : List Effect} {hsRes : List (String × Host)}
    {effsP : List Effect} {psRes : List (String × Project)}
    (hver : Workspace._parse_workspace_version json = Except.ok ver)
    (hH : Workspace._parse_workspace_hosts json = (effsH, Except.ok hsRes))
    (hP : Workspace._parse_workspace_projects json hsRes rd = (effsP, Except.ok psRes)) :
    loadWorkspace rd json = (effsH ++ effsP,
      Except.ok ⟨ver, rd, rd ++ ["projects"], hsRes, psRes⟩) := by
  simp only [loadWorkspace, hver]
  try dsimp only
  rw [hH]
  try dsimp only
  rw [hP]

/-- Claim C1, counterexample: loading the minimal valid manifest performs a
filesystem mutation, initialising a bare git repository at root/lib-a. -/
theorem claim_C1_counterexample :
    (loadWorkspace ["root"] exampleManifest).1 = [Effect.repoInit ["root", "lib-a"]] ∧
    Effect.isFsMutation (Effect.repoInit ["root", "lib-a"]) = true :=
  ⟨rfl, rfl⟩

/-- Claim C1, amended: a successful load is not filesystem-pure; its
filesystem mutations are exactly one bare-repository initialisation at the
absolute local path of each constructed project, in manifest order. -/
theorem claim_C1_amended {rd : List String} {json : List (String × JValue)}
    {effs : List Effect} {ws : Workspace}
    (h : loadWorkspace rd json = (effs, Except.ok ws)) :
    effs.filter Effect.isFsMutation =
      ws.projects.map (fun q => Effect.repoInit q.2.absolute_local_path) := by
  obtain ⟨effsH, effsP, hh, hp, heffs, _⟩ := loadWorkspace_ok_elim h
  obtain ⟨entries, _, hloop⟩ := parseProjects_ok_elim hp
  have h1 : effsH.filter Effect.isFsMutation = [] := by
    have h2 := parseHosts_effects json
    rw [hh] at h2
    exact h2
  rw [heffs, List.filter_append, h1, List.nil_append]
  exact projectsLoop_filter_fs ws.hosts rd entries effsP ws.projects hloop

/-- Claim C1, witness: the amended statement evaluated on the minimal
example manifest. -/
theorem claim_C1_witness :
    List.filter Effect.isFsMutation [Effect.repoInit ["root", "lib-a"]] =
      exampleWorkspace.projects.map (fun q => Effect.repoInit q.2.absolute_local_path) :=
  claim_C1_amended (show loadWorkspace ["root"] exampleManifest =
    ([Effect.repoInit ["root", "lib-a"]], Except.ok exampleWorkspace) from rfl)

/-- Claim C2, counterexample: the valid manifest with zero hosts and zero
projects does not load; it fails with the missing-field diagnostic for
hosts. -/
theorem claim_C2_counterexample :
    loadWorkspace ["root"] emptyCollectionsManifest =
      ([], Except.error (.fatal (.missingRootField "hosts"))) := rfl

/-- Claim C2, amended: for every manifest with a parsing version, at least
one valid host and at least one valid project whose host reference is
declared, loadWorkspace succeeds and the workspace holds exactly the N hosts
and M projects, in manifest key order. -/
theorem claim_C2_amended {json : List (String × JValue)} (rd : List String)
    {ver : Version} {hs ps : List (String × JValue)}
    (hver : Workspace._parse_workspace_version json = Except.ok ver)
    (hhosts : lookup' json "hosts" = some (JValue.obj hs)) (hhne : hs ≠ [])
    (hvh : ∀ q ∈ hs, validHostJson q.2 = true)
    (hprojects : lookup' json "projects" = some (JValue.obj ps)) (hpne : ps ≠ [])
    (hvp : ∀ q ∈ ps, validProjectJson (hs.map Prod.fst) q.2 = true) :
    ∃ effs ws, loadWorkspace rd json = (effs, Except.ok ws) ∧
      ws.hosts.map Prod.fst = hs.map Prod.fst ∧
      ws.projects.map Prod.fst = ps.map Prod.fst ∧
      ws.hosts.length = hs.length ∧ ws.projects.length = ps.length := by
  obtain ⟨effsH, hsRes, hloopH, hkeysH⟩ := hostsLoop_ok_of_valid hs hvh
  have hH : Workspace._parse_workspace_hosts json = (effsH, Except.ok hsRes) := by
    rw [parseHosts_ok_intro hhosts hhne, hloopH]
  have hvp2 : ∀ q ∈ ps, validProjectJson (hsRes.map Prod.fst) q.2 = true := by
    rw [hkeysH]; exact hvp
  obtain ⟨effsP, psRes, hloopP, hkeysP⟩ := projectsLoop_ok_of_valid hsRes rd ps hvp2
  have hP : Workspace._parse_workspace_projects json hsRes rd = (effsP, Except.ok psRes) := by
    rw [parseProjects_ok_intro hsRes rd hprojects hpne, hloopP]
  refine ⟨effsH ++ effsP, _, loadWorkspace_ok_intro hver hH hP,
    hkeysH, hkeysP, ?_, ?_⟩
  · have := congrArg List.length hkeysH
    simpa using this
  · have := congrArg List.length hkeysP
    simpa using this

/-- Claim C2, witness: the amended statement evaluated on the minimal
example manifest (one host, one project). -/
theorem claim_C2_witness :
    ∃ effs ws, loadWorkspace ["root"] exampleManifest = (effs, Except.ok ws) ∧
      ws.hosts.map Prod.fst =
        [("google", JValue.obj [("url", JValue.str "https://github.com/google")])].map Prod.fst ∧
      ws.projects.map Prod.fst =
        [("lib-a", JValue.obj [("host", JValue.str "google")])].map Prod.fst ∧
      ws.hosts.length =
        [("google", JValue.obj [("url", JValue.str "https://github.com/google")])].length ∧
      ws.projects.length = [("lib-a", JValue.obj [("host", JValue.str "google")])].length :=
  claim_C2_amended ["root"] rfl rfl (List.cons_ne_nil _ _) (by decide) rfl
    (List.cons_ne_nil _ _) (by decide)


/-- Claim C3, code bug: a version string of two dot-separated parts whose
part is not an integer literal, such as a.b, raises an uncaught ValueError
from int() (the conversion sits outside the try block) instead of the
malformed-version diagnostic; and -1.2, which the pattern also rejects, is
accepted by int() and loads as Version(-1, 2). -/
theorem claim_C3_divergence :
    loadWorkspace ["root"] [("version", JValue.str "a.b")] =
      ([], Except.error (Failure.pythonCrash "ValueError")) ∧
    (loadWorkspace ["root"]
      [("version", JValue.str "-1.2"),
       ("hosts", JValue.obj [("g", JValue.obj [("url", JValue.str "u")])]),
       ("projects", JValue.obj [("p", JValue.obj [("host", JValue.str "g")])])]).2.toOption.map
        (fun ws => ws._woid_version) = some { major := -1, minor := 2 } :=
  ⟨rfl, rfl⟩

/-- Claim C4, counterexample: with hosts declared as zeta then alpha and a
project referencing the undeclared host missing, the load fails with the
unresolved-reference diagnostic whose valid options are the declared names
in manifest order, zeta then alpha, which is not the sorted list. -/
theorem claim_C4_counterexample :
    (loadWorkspace ["root"] danglingRefManifest).2 =
      Except.error (.fatal (.unresolvedReference "lib" "missing" ["zeta", "alpha"]
        [("lib", JValue.obj [])])) ∧
    (["zeta", "alpha"] : List String) ≠ ["alpha", "zeta"] :=
  ⟨rfl, by decide⟩

/-- Claim C4, amended: for every manifest with a parsing version and valid
hosts whose projects are valid up to the first one with a dangling host
reference, loadWorkspace fails with the unresolved-reference diagnostic and
the valid options it carries are the declared host names in manifest
declaration order (not sorted). -/
theorem claim_C4_amended {json : List (String × JValue)} (rd : List String)
    {ver : Version} {hs : List (String × JValue)}
    (pre : List (String × JValue)) (pname : String) (pjson : List (String × JValue))
    (rest : List (String × JValue)) (r : String)
    (hver : Workspace._parse_workspace_version json = Except.ok ver)
    (hhosts : lookup' json "hosts" = some (JValue.obj hs)) (hhne : hs ≠ [])
    (hvh : ∀ q ∈ hs, validHostJson q.2 = true)
    (hprojects : lookup' json "projects" =
      some (JValue.obj (pre ++ (pname, JValue.obj pjson) :: rest)))
    (hpre : ∀ q ∈ pre, validProjectJson (hs.map Prod.fst) q.2 = true)
    (hhost : lookup' pjson "host" = some (JValue.str r)) (hr : r.isEmpty = false)
    (hnot : r ∉ hs.map Prod.fst) :
    (loadWorkspace rd json).2 = Except.error (.fatal (.unresolvedReference pname r
      (hs.map Prod.fst) [(pname, JValue.obj (dropKey pjson "host"))])) := by
  obtain ⟨effsH, hsRes, hloopH, hkeysH⟩ := hostsLoop_ok_of_valid hs hvh
  have hH : Workspace._parse_workspace_hosts json = (effsH, Except.ok hsRes) := by
    rw [parseHosts_ok_intro hhosts hhne, hloopH]
  have hpre2 : ∀ q ∈ pre, validProjectJson (hsRes.map Prod.fst) q.2 = true := by
    rw [hkeysH]; exact hpre
  have hnot2 : r ∉ hsRes.map Prod.fst := by rw [hkeysH]; exact hnot
  have herr := projectsLoop_unresolved hsRes rd pre pname pjson rest r hpre2 hhost hr hnot2
  rw [hkeysH] at herr
  cases hP : Workspace.projectsLoop hsRes rd (pre ++ (pname, JValue.obj pjson) :: rest) with
  | mk effsP rp =>
    rw [hP] at herr
    dsimp only at herr
    subst herr
    have hP2 : Workspace._parse_workspace_projects json hsRes rd =
        (effsP, Except.error (.fatal (.unresolvedReference pname r
          (hs.map Prod.fst) [(pname, JValue.obj (dropKey pjson "host"))]))) := by
      rw [parseProjects_ok_intro hsRes rd hprojects (by simp), hP]
    rw [loadWorkspace_projects_err hver hH hP2]

/-- Claim C4, witness: the amended statement evaluated on the dangling
reference manifest. -/
theorem claim_C4_witness :
    (loadWorkspace ["root"] danglingRefManifest).2 = Except.error
      (.fatal (.unresolvedReference "lib" "missing"
        ([("zeta", JValue.obj [("url", JValue.str "uz")]),
          ("alpha", JValue.obj [("url", JValue.str "ua")])].map Prod.fst)
        [("lib", JValue.obj (dropKey [("host", JValue.str "missing")] "host"))])) :=
  claim_C4_amended ["root"] [] "lib" [("host", JValue.str "missing")] [] "missing"
    rfl rfl (List.cons_ne_nil _ _) (by decide) rfl
    (fun q hq => absurd hq (List.not_mem_nil q)) rfl rfl (by decide)

/-- Claim C5, counterexample: a manifest from which hosts and projects are
both absent but whose version is 1.2.3 fails with the malformed-version
diagnostic, not with a missing-field diagnostic. -/
theorem claim_C5_counterexample :
    loadWorkspace ["root"] [("version", JValue.str "1.2.3")] =
      ([], Except.error (.fatal (.malformedVersion "1.2.3"))) := rfl

/-- Claim C5, amended: a missing top-level field is reported as the
missing-field diagnostic naming that field provided every earlier stage of
the pipeline succeeded: version is checked first, then hosts, then
projects. -/
theorem claim_C5_amended :
    (∀ rd json, lookup' json "version" = none →
      loadWorkspace rd json = ([], Except.error (.fatal (.missingRootField "version")))) ∧
    (∀ rd json ver, Workspace._parse_workspace_version json = Except.ok ver →
      lookup' json "hosts" = none →
      loadWorkspace rd json = ([], Except.error (.fatal (.missingRootField "hosts")))) ∧
    (∀ rd json ver effsH hs, Workspace._parse_workspace_version json = Except.ok ver →
      Workspace._parse_workspace_hosts json = (effsH, Except.ok hs) →
      lookup' json "projects" = none →
      (loadWorkspace rd json).2 = Except.error (.fatal (.missingRootField "projects"))) := by
  refine ⟨?_, ?_, ?_⟩
  · intro rd json h
    exact loadWorkspace_version_err (parseVersion_missing (by simp [truthyOpt, h]))
  · intro rd json ver hver h
    exact loadWorkspace_hosts_err hver (parseHosts_missing (by simp [truthyOpt, h]))
  · intro rd json ver effsH hs hver hH h
    rw [loadWorkspace_projects_err hver hH (parseProjects_missing hs rd (by simp [truthyOpt, h]))]

/-- Claim C5, witness: the amended statement evaluated on three manifests,
each missing exactly one top-level field with the earlier stages valid. -/
theorem claim_C5_witness :
    loadWorkspace ["root"] [("hosts", JValue.obj [("g", JValue.obj [("url", JValue.str "u")])])] =
      ([], Except.error (.fatal (.missingRootField "version"))) ∧
    loadWorkspace ["root"] [("version", JValue.str "0.1")] =
      ([], Except.error (.fatal (.missingRootField "hosts"))) ∧
    (loadWorkspace ["root"] [("version", JValue.str "0.1"),
        ("hosts", JValue.obj [("g", JValue.obj [("url", JValue.str "u")])])]).2 =
      Except.error (.fatal (.missingRootField "projects")) :=
  ⟨claim_C5_amended.1 ["root"] _ rfl,
   claim_C5_amended.2.1 ["root"] _ ⟨0, 1⟩ rfl rfl,
   claim_C5_amended.2.2 ["root"] _ ⟨0, 1⟩ [] [("g", ⟨"g", "u"⟩)] rfl rfl rfl⟩


/-- Claim C6: every project of a successfully loaded workspace resolves its
host reference to an entry of that workspace's host map; a truthy host
reference on which the host-map get returns None makes construction fail
with the fatal unresolved-reference diagnostic; and more generally any
truthy host reference that does not resolve to a host (a get miss, or the
uncaught TypeError a get on an unhashable value raises) makes Project
construction return an error, so no workspace is produced. -/
theorem claim_C6 :
    (∀ rd json effs ws, loadWorkspace rd json = (effs, Except.ok ws) →
      ∀ q ∈ ws.projects, lookup' ws.hosts q.2.hostRef = some q.2.host) ∧
    (∀ name pjson hosts rd hv, lookup' pjson "host" = some hv → truthy hv = true →
      lookupHost hosts hv = Except.ok none →
      (Project.init name (JValue.obj pjson) hosts rd).2 =
        Except.error (.fatal (.unresolvedReference name (pyStr hv)
          (hosts.map (fun p => p.1)) [(name, JValue.obj (dropKey pjson "host"))]))) ∧
    (∀ name pjson hosts rd hv, lookup' pjson "host" = some hv → truthy hv = true →
      (∀ h, lookupHost hosts hv ≠ Except.ok (some h)) →
      ∃ e, (Project.init name (JValue.obj pjson) hosts rd).2 = Except.error e) := by
  refine ⟨?_, ?_, ?_⟩
  · intro rd json effs ws h q hq
    obtain ⟨effsH, effsP, hh, hp, _, _⟩ := loadWorkspace_ok_elim h
    obtain ⟨entries, _, hloop⟩ := parseProjects_ok_elim hp
    exact projectsLoop_mem_resolve ws.hosts rd entries effsP ws.projects hloop q hq
  · intro name pjson hosts rd hv h1 h2 h3
    simp [Project.init, h1, h2, h3]
  · intro name pjson hosts rd hv h1 h2 h3
    cases hl : lookupHost hosts hv with
    | ok o =>
      cases o with
      | some h => exact absurd hl (h3 h)
      | none =>
        refine ⟨.fatal (.unresolvedReference name (pyStr hv)
          (hosts.map (fun p => p.1)) [(name, JValue.obj (dropKey pjson "host"))]), ?_⟩
        simp [Project.init, h1, h2, hl]
    | error e0 =>
      refine ⟨e0, ?_⟩
      simp [Project.init, h1, h2, hl]

/-- Claim C6, witness: referential integrity evaluated on the workspace the
minimal example manifest loads to; the unresolved-reference diagnostic at a
dangling string reference; and the error outcome at an unhashable (dict)
host reference. -/
theorem claim_C6_witness :
    lookup' exampleWorkspace.hosts exampleProject.hostRef = some exampleProject.host ∧
    (Project.init "p" (JValue.obj [("host", JValue.str "missing")])
        [("google", exampleHost)] ["root"]).2 =
      Except.error (.fatal (.unresolvedReference "p" (pyStr (JValue.str "missing"))
        ([("google", exampleHost)].map (fun p => p.1))
        [("p", JValue.obj (dropKey [("host", JValue.str "missing")] "host"))])) ∧
    (∃ e, (Project.init "p" (JValue.obj [("host", JValue.obj [("a", JValue.num 1)])])
        [("google", exampleHost)] ["root"]).2 = Except.error e) :=
  ⟨claim_C6.1 ["root"] exampleManifest [Effect.repoInit ["root", "lib-a"]] exampleWorkspace rfl
    ("lib-a", exampleProject) (List.mem_singleton.mpr rfl),
   claim_C6.2.1 "p" [("host", JValue.str "missing")] [("google", exampleHost)] ["root"]
    (JValue.str "missing") rfl rfl rfl,
   claim_C6.2.2 "p" [("host", JValue.obj [("a", JValue.num 1)])] [("google", exampleHost)]
    ["root"] (JValue.obj [("a", JValue.num 1)]) rfl rfl
    (fun h hcon => by simp [lookupHost] at hcon)⟩

/-- Claim C7: a successfully constructed project takes its absolute host
path from the resolved host's url, a slash and the reference name used in
its host field, and its absolute local path from the workspace root
directory joined with the project name; the minimal example manifest yields
host path https://github.com/google/google and local path root/lib-a. -/
theorem claim_C7 :
    (∀ name v hosts rd effs p, Project.init name v hosts rd = (effs, Except.ok p) →
      ∃ json r h, v = JValue.obj json ∧ lookup' json "host" = some (JValue.str r) ∧
        lookup' hosts r = some h ∧ p.host = h ∧
        p.absolute_host_path = h.url ++ "/" ++ r ∧
        p.absolute_local_path = rd ++ [name]) ∧
    ((loadWorkspace ["root"] exampleManifest).2.toOption.map
        (fun ws => ws.projects.map (fun q => (q.2.absolute_host_path, q.2.absolute_local_path))) =
      some [("https://github.com/google/google", ["root", "lib-a"])]) := by
  constructor
  · intro name v hosts rd effs p h
    obtain ⟨json, r, h', hv, hh, hl, hpeq, _⟩ := projectInit_ok_elim h
    exact ⟨json, r, h', hv, hh, hl, by rw [hpeq], by rw [hpeq], by rw [hpeq]⟩
  · rfl

/-- Claim C7, witness: the universal part evaluated on the example project
construction. -/
theorem claim_C7_witness :
    ∃ json r h, JValue.obj [("host", JValue.str "google")] = JValue.obj json ∧
      lookup' json "host" = some (JValue.str r) ∧
      lookup' [("google", exampleHost)] r = some h ∧ exampleProject.host = h ∧
      exampleProject.absolute_host_path = h.url ++ "/" ++ r ∧
      exampleProject.absolute_local_path = ["root"] ++ ["lib-a"] :=
  claim_C7.1 "lib-a" (JValue.obj [("host", JValue.str "google")]) [("google", exampleHost)]
    ["root"] [Effect.repoInit ["root", "lib-a"]] exampleProject rfl

/-- Claim C8: a hosts field bound to an empty object fails exactly like an
absent hosts field, with the missing-field diagnostic for hosts, and a
projects field bound to an empty object fails likewise for projects, because
presence is tested by truthiness. -/
theorem claim_C8 :
    (∀ rd json ver, Workspace._parse_workspace_version json = Except.ok ver →
      lookup' json "hosts" = some (JValue.obj []) →
      loadWorkspace rd json = ([], Except.error (.fatal (.missingRootField "hosts")))) ∧
    (∀ rd json ver effsH hs, Workspace._parse_workspace_version json = Except.ok ver →
      Workspace._parse_workspace_hosts json = (effsH, Except.ok hs) →
      lookup' json "projects" = some (JValue.obj []) →
      (loadWorkspace rd json).2 = Except.error (.fatal (.missingRootField "projects"))) := by
  constructor
  · intro rd json ver hver h
    exact loadWorkspace_hosts_err hver
      (parseHosts_missing (by simp [truthyOpt, h, truthy]))
  · intro rd json ver effsH hs hver hH h
    rw [loadWorkspace_projects_err hver hH
      (parseProjects_missing hs rd (by simp [truthyOpt, h, truthy]))]

/-- Claim C8, witness: the statement evaluated on a manifest with empty
hosts and on a manifest with one valid host and empty projects. -/
theorem claim_C8_witness :
    loadWorkspace ["root"] emptyCollectionsManifest =
      ([], Except.error (.fatal (.missingRootField "hosts"))) ∧
    (loadWorkspace ["root"] [("version", JValue.str "0.1"),
        ("hosts", JValue.obj [("g", JValue.obj [("url", JValue.str "u")])]),
        ("projects", JValue.obj [])]).2 =
      Except.error (.fatal (.missingRootField "projects")) :=
  ⟨claim_C8.1 ["root"] emptyCollectionsManifest ⟨0, 1⟩ rfl rfl,
   claim_C8.2 ["root"] _ ⟨0, 1⟩ [] [("g", ⟨"g", "u"⟩)] rfl rfl rfl⟩

/-- Claim C9: a version field holding a falsy scalar (0, false, the empty
string or null) is reported as the missing-field diagnostic for version, and
a host url field holding such a value is reported as the missing-field
diagnostic for url, instead of coercing the present value. -/
theorem claim_C9 :
    (∀ json v, lookup' json "version" = some v →
      (v = JValue.num 0 ∨ v = JValue.bool false ∨ v = JValue.str "" ∨ v = JValue.null) →
      Workspace._parse_workspace_version json =
        Except.error (.fatal (.missingRootField "version"))) ∧
    (∀ name hjson u, lookup' hjson "url" = some u →
      (u = JValue.num 0 ∨ u = JValue.bool false ∨ u = JValue.str "" ∨ u = JValue.null) →
      (Host.init name (JValue.obj hjson)).2 =
        Except.error (.fatal (.missingField "url" name
          [(name, JValue.obj (dropKey hjson "url"))]))) := by
  constructor
  · intro json v hl hfalsy
    apply parseVersion_missing
    rcases hfalsy with rfl | rfl | rfl | rfl <;>
      simp [truthyOpt, truthy, hl, show ("" : String).isEmpty = true from rfl]
  · intro name hjson u hl hfalsy
    rcases hfalsy with rfl | rfl | rfl | rfl <;>
      simp [Host.init, hl, truthy, show ("" : String).isEmpty = true from rfl]

/-- Claim C9, witness: the statement evaluated at version 0 and at a host
with an empty url next to another field. -/
theorem claim_C9_witness :
    Workspace._parse_workspace_version [("version", JValue.num 0)] =
      Except.error (.fatal (.missingRootField "version")) ∧
    (Host.init "g" (JValue.obj [("url", JValue.str ""), ("x", JValue.num 1)])).2 =
      Except.error (.fatal (.missingField "url" "g"
        [("g", JValue.obj (dropKey [("url", JValue.str ""), ("x", JValue.num 1)] "url"))])) :=
  ⟨claim_C9.1 [("version", JValue.num 0)] (JValue.num 0) rfl (Or.inl rfl),
   claim_C9.2 "g" [("url", JValue.str ""), ("x", JValue.num 1)] (JValue.str "") rfl
     (Or.inr (Or.inr (Or.inl rfl)))⟩


/-- Claim C10: Host and Project construction consume their key from the
input object before further processing: the extraneous-field warning lists
the keys of the object with url removed, and the erroneous_json fragment of
every fatal diagnostic of these constructors carries the object with the
consumed key (url for a host, host for a project) removed. -/
theorem claim_C10 (name : String) (json : List (String × JValue))
    (hosts : List (String × Host)) (rd : List String)
    (hnd : (json.map Prod.fst).Nodup) :
    ((Host.init name (JValue.obj json)).1 = [] ∨
      (Host.init name (JValue.obj json)).1 =
        [Effect.warnExtraneous name ((json.map Prod.fst).erase "url")]) ∧
    (∀ e, (Host.init name (JValue.obj json)).2 = Except.error (Failure.fatal e) →
      e = ManifestError.missingField "url" name [(name, JValue.obj (dropKey json "url"))]) ∧
    (∀ e, (Project.init name (JValue.obj json) hosts rd).2 = Except.error (Failure.fatal e) →
      (e = ManifestError.missingField "host" name [(name, JValue.obj (dropKey json "host"))] ∨
       ∃ r, e = ManifestError.unresolvedReference name r (hosts.map (fun p => p.1))
          [(name, JValue.obj (dropKey json "host"))])) ∧
    (dropKey json "url").map Prod.fst = (json.map Prod.fst).erase "url" ∧
    (dropKey json "host").map Prod.fst = (json.map Prod.fst).erase "host" ∧
    "url" ∉ (dropKey json "url").map Prod.fst ∧
    "host" ∉ (dropKey json "host").map Prod.fst := by
  refine ⟨?_, ?_, ?_, dropKey_keys_of_nodup hnd, dropKey_keys_of_nodup hnd,
    dropKey_key_not_mem json "url", dropKey_key_not_mem json "host"⟩
  · simp only [Host.init]
    cases hu : lookup' json "url" with
    | none => left; rfl
    | some u =>
      dsimp only
      by_cases ht : truthy u
      · rw [if_pos ht]
        by_cases he0 : (dropKey json "url").isEmpty
        · left; simp [he0]
        · right
          rw [if_neg he0]
          rw [show ((dropKey json "url").map (fun p => p.1)) =
            ((dropKey json "url").map Prod.fst) from rfl]
          rw [dropKey_keys_of_nodup hnd]
      · left; rw [if_neg ht]
  · intro e he
    simp only [Host.init] at he
    cases hu : lookup' json "url" with
    | none =>
      rw [hu] at he
      dsimp only at he
      injection he with h1
      injection h1 with h2
      exact h2.symm
    | some u =>
      rw [hu] at he
      dsimp only at he
      by_cases ht : truthy u
      · rw [if_pos ht] at he
        simp at he
      · rw [if_neg ht] at he
        dsimp only at he
        injection he with h1
        injection h1 with h2
        exact h2.symm
  · intro e he
    simp only [Project.init] at he
    cases hh : lookup' json "host" with
    | none =>
      rw [hh] at he
      dsimp only at he
      injection he with h1
      injection h1 with h2
      exact Or.inl h2.symm
    | some hv =>
      rw [hh] at he
      dsimp only at he
      by_cases ht : truthy hv
      · rw [if_pos ht] at he
        cases hl : lookupHost hosts hv with
        | ok o =>
          rw [hl] at he
          cases o with
          | some h => dsimp only at he; simp at he
          | none =>
            dsimp only at he
            injection he with h1
            injection h1 with h2
            exact Or.inr ⟨pyStr hv, h2.symm⟩
        | error e0 =>
          rw [hl] at he
          dsimp only at he
          injection he with h1
          subst h1
          cases hv <;> simp [lookupHost] at hl
      · rw [if_neg ht] at he
        dsimp only at he
        injection he with h1
        injection h1 with h2
        exact Or.inl h2.symm

/-- Claim C10, witness: the statement evaluated on the object with the
single field extra, an empty host map and root directory root. -/
theorem claim_C10_witness :
    ((Host.init "g" (JValue.obj [("extra", JValue.str "x")])).1 = [] ∨
      (Host.init "g" (JValue.obj [("extra", JValue.str "x")])).1 =
        [Effect.warnExtraneous "g"
          (([("extra", JValue.str "x")].map Prod.fst).erase "url")]) ∧
    (∀ e, (Host.init "g" (JValue.obj [("extra", JValue.str "x")])).2 =
        Except.error (Failure.fatal e) →
      e = ManifestError.missingField "url" "g"
        [("g", JValue.obj (dropKey [("extra", JValue.str "x")] "url"))]) ∧
    (∀ e, (Project.init "g" (JValue.obj [("extra", JValue.str "x")]) [] ["root"]).2 =
        Except.error (Failure.fatal e) →
      (e = ManifestError.missingField "host" "g"
        [("g", JValue.obj (dropKey [("extra", JValue.str "x")] "host"))] ∨
       ∃ r, e = ManifestError.unresolvedReference "g" r
          (([] : List (String × Host)).map (fun p => p.1))
          [("g", JValue.obj (dropKey [("extra", JValue.str "x")] "host"))])) ∧
    (dropKey [("extra", JValue.str "x")] "url").map Prod.fst =
      ([("extra", JValue.str "x")].map Prod.fst).erase "url" ∧
    (dropKey [("extra", JValue.str "x")] "host").map Prod.fst =
      ([("extra", JValue.str "x")].map Prod.fst).erase "host" ∧
    "url" ∉ (dropKey [("extra", JValue.str "x")] "url").map Prod.fst ∧
    "host" ∉ (dropKey [("extra", JValue.str "x")] "host").map Prod.fst :=
  claim_C10 "g" [("extra", JValue.str "x")] [] ["root"] (by decide)

end Woid
